import Mathlib

set_option autoImplicit false

/-!
Verification of the blame-based highlight engine of the Commit Hash
Highlighter extension (sources: `src/GitBlameService.ts`,
`src/SidebarProvider.ts`).

The TypeScript classes are embedded shallowly:

* `Map<string, A>` objects become association lists `List (String × A)`
  kept in insertion order (JavaScript `Map` iterates in insertion order).
  `Map.delete` removes the (unique) entry with the key; the embedding
  removes every entry with the key, which agrees on the unique-key lists
  the code actually builds.
* the external world (VS Code workspace lookup and the three `git`
  child-process invocations) is a record of oracle functions `GitEnv`;
  a failing process is an `Except.error` result, a caught exception in
  the TypeScript source.
* decorations applied with `editor.setDecorations` are stored per editor;
  the primary and minimap decoration types always receive the same array
  in the source, so a single list is kept. `document.lineAt(n).range` is
  represented by the line number itself.
* `console.log` / `showInformationMessage` / webview `postMessage`
  (`saveState`) do not touch engine state and are dropped.
-/

/-- `interface BlameInfo { hash: string; lines: number[] }`
(`GitBlameService.ts` lines 7-10). -/
structure BlameInfo where
  hash : String
  lines : List Nat
deriving DecidableEq, Repr

/-- `interface HighlightedFileInfo { uri: vscode.Uri; highlightCount: number }`
(`GitBlameService.ts` lines 13-16); a `vscode.Uri` is represented by its
`fsPath` string. -/
structure HighlightedFileInfo where
  uri : String
  highlightCount : Nat
deriving DecidableEq, Repr

/-- One element of the `decorationsArray` built in `applyHighlighting`
(`GitBlameService.ts` lines 112-115): the range is the whole line
`lineNumber`, and the hover message is `Commit: ${hash}`. -/
structure Decoration where
  line : Nat
  hoverMessage : String
deriving DecidableEq, Repr

/-- `Map.get` on an association list (first entry with the key wins). -/
def mapLookup {α : Type} : List (String × α) → String → Option α
  | [], _ => none
  | p :: rest, k => if p.1 = k then some p.2 else mapLookup rest k

/-- `Map.delete` on an association list. -/
def mapErase {α : Type} : List (String × α) → String → List (String × α)
  | [], _ => []
  | p :: rest, k => if p.1 = k then mapErase rest k else p :: mapErase rest k

/-- `Map.has` on an association list. -/
def mapHasKey {α : Type} (m : List (String × α)) (k : String) : Bool :=
  m.any (fun p => p.1 == k)

/-- `Map.set` on an association list: replace in place when the key is
present, append otherwise (JavaScript `Map.set` keeps the original
insertion position of an existing key). -/
def mapSet {α : Type} (m : List (String × α)) (k : String) (v : α) :
    List (String × α) :=
  if mapHasKey m k then m.map (fun p => if p.1 = k then (k, v) else p)
  else m ++ [(k, v)]

/-- JavaScript `\w`: ASCII letters, digits and underscore. -/
def isWordChar (c : Char) : Bool := c.isAlphanum || c == '_'

/-- JavaScript `s.split('\n')` on the character list: splitting keeps
empty segments, and the empty string splits to one empty segment. -/
def splitLinesList : List Char → List (List Char)
  | [] => [[]]
  | c :: rest =>
    if c = '\n' then [] :: splitLinesList rest
    else
      match splitLinesList rest with
      | [] => [[c]]
      | l :: ls => (c :: l) :: ls

/-- JavaScript `stdout.split('\n')` (`GitBlameService.ts` line 212). -/
def jsSplitNewline (s : String) : List String :=
  (splitLinesList s.data).map String.mk

/-- JavaScript `s.trim()`: strip leading and trailing whitespace. -/
def jsTrim (s : String) : String :=
  String.mk (((s.data.dropWhile Char.isWhitespace).reverse.dropWhile
    Char.isWhitespace).reverse)

/-- The capture of `line.match(/^(\w+)/)`: the leading run of word
characters (`GitBlameService.ts` line 220). -/
def leadingWordRun (line : String) : String :=
  String.mk (line.data.takeWhile isWordChar)

/-- JavaScript `hash.substring(0, 40)` (`GitBlameService.ts` line 223). -/
def jsSubstring40 (s : String) : String := String.mk (s.data.take 40)

/-- JavaScript `s.startsWith(pre)` (`GitBlameService.ts` line 280). -/
def jsStartsWith (s pre : String) : Bool := pre.data.isPrefixOf s.data

/-- The hash token extracted from one line of `git blame -l` output by
`getBlameInfoForFile` (`GitBlameService.ts` lines 216-223): skip the
line when it is empty or whitespace-only, match `/^(\w+)/` (no match
when the line does not begin with a word character), and truncate the
captured token to its first 40 characters. -/
def lineToken (line : String) : Option String :=
  if jsTrim line = "" then none
  else if leadingWordRun line = "" then none
  else some (jsSubstring40 (leadingWordRun line))

/-- `hashMap.has(shortHash)` (`GitBlameService.ts` line 224). -/
def hasHash (m : List BlameInfo) (h : String) : Bool :=
  m.any (fun b => b.hash == h)

/-- `hashMap.get(shortHash)?.push(i)` with on-demand creation of the
bucket (`GitBlameService.ts` lines 224-227), on the insertion-ordered
association list. -/
def insertLine (m : List BlameInfo) (h : String) (i : Nat) : List BlameInfo :=
  if hasHash m h then
    m.map (fun b => if b.hash = h then { b with lines := b.lines ++ [i] } else b)
  else m ++ [{ hash := h, lines := [i] }]

/-- The parsing loop of `getBlameInfoForFile` (`GitBlameService.ts`
lines 215-229): walk the blame-output lines with their index `i`,
inserting each recognized hash token. -/
def processLines : Nat → List String → List BlameInfo → List BlameInfo
  | _, [], m => m
  | i, line :: rest, m =>
    match lineToken line with
    | none => processLines (i + 1) rest m
    | some h => processLines (i + 1) rest (insertLine m h i)

/-- `stdout.split('\n')` followed by the parsing loop and the
`hashMap.forEach` conversion to a `BlameInfo[]` (`GitBlameService.ts`
lines 211-233); the forEach preserves insertion order, which the
association list already has. -/
def parseBlameOutput (stdout : String) : List BlameInfo :=
  processLines 0 (jsSplitNewline stdout) []

/-- The hash list of a blame record, in insertion order. -/
def blameKeys (m : List BlameInfo) : List String := m.map (fun b => b.hash)

/-- How many times line number `n` occurs across all buckets of a blame
record, counted with multiplicity. -/
def occ (m : List BlameInfo) (n : Nat) : Nat :=
  (m.map (fun b => b.lines.count n)).sum

/-- How many positions of the line list, starting at index `i`, carry the
index `n` together with a recognizable hash token. -/
def countTok : Nat → List String → Nat → Nat
  | _, [], _ => 0
  | i, l :: rest, n =>
    (if i = n ∧ (lineToken l).isSome then 1 else 0) + countTok (i + 1) rest n

/-- Node's `path.relative(root, fp)` for a file under the root
(`GitBlameService.ts` line 204); only ever fed back to the `git blame`
oracle. -/
def pathRelative (root fp : String) : String :=
  String.mk (fp.data.drop (root.length + 1))

/-- Node's `path.join(root, f)` (`GitBlameService.ts` line 292). -/
def pathJoin (root f : String) : String := root ++ "/" ++ f

/-- The external world: VS Code workspace-folder lookup and the three git
child-process queries (`git blame -l`, `git diff-tree`, `git log --grep`),
each fallible. -/
structure GitEnv where
  workspaceFolder : String → Option String
  workspaceFolders : Option String
  gitBlame : String → String → Except String String
  gitDiffTree : String → String → Except String String
  gitLogGrep : String → String → Except String String

/-- The mutable fields of `GitBlameService` the claims are about:
`_blameCache` and `_highlightedFiles` (`GitBlameService.ts` lines 21-22). -/
structure GitBlameServiceState where
  blameCache : List (String × List BlameInfo)
  highlightedFiles : List (String × HighlightedFileInfo)
deriving DecidableEq, Repr

/-- One visible editor: its document's `fsPath` and the decorations
currently applied to it. -/
structure EditorState where
  path : String
  decorations : List Decoration
deriving DecidableEq, Repr

/-- `editor.setDecorations(type, d)` for the editor showing `p`. -/
def setEditorDecorations (eds : List EditorState) (p : String)
    (d : List Decoration) : List EditorState :=
  eds.map (fun e => if e.path = p then { e with decorations := d } else e)

/-- `getBlameInfoForFile` (`GitBlameService.ts` lines 191-242): cached
record if present; otherwise empty record when the file has no workspace
folder, empty record when `git blame` fails (the catch block), and the
parsed, freshly cached record on success.  The function is total: the
TypeScript body catches every error and returns an array, never
throwing to the caller. -/
def getBlameInfoForFile (env : GitEnv) (svc : GitBlameServiceState)
    (filePath : String) : List BlameInfo × GitBlameServiceState :=
  match mapLookup svc.blameCache filePath with
  | some infos => (infos, svc)
  | none =>
    match env.workspaceFolder filePath with
    | none => ([], svc)
    | some root =>
      match env.gitBlame root (pathRelative root filePath) with
      | Except.error _ => ([], svc)
      | Except.ok stdout =>
        let infos := parseBlameOutput stdout
        (infos, { svc with blameCache := mapSet svc.blameCache filePath infos })

/-- The decoration array built by the nested loops of `applyHighlighting`
(`GitBlameService.ts` lines 105-119): one decoration per line of every
blame entry whose hash is literally contained in `commitHashes`. -/
def computeDecorations : List BlameInfo → List String → List Decoration
  | [], _ => []
  | b :: rest, hs =>
    (if hs.contains b.hash then
      b.lines.map (fun n => { line := n, hoverMessage := "Commit: " ++ b.hash })
    else []) ++ computeDecorations rest hs

/-- `applyHighlighting` (`GitBlameService.ts` lines 91-141): early return
on an empty hash list, fetch (and possibly cache) the blame record,
early return when it is empty, otherwise apply the decoration array to
the editor and record or delete the file's `_highlightedFiles` entry
depending on whether any decoration was produced. -/
def applyHighlighting (env : GitEnv) (svc : GitBlameServiceState)
    (eds : List EditorState) (p : String) (commitHashes : List String) :
    GitBlameServiceState × List EditorState :=
  if commitHashes = [] then (svc, eds)
  else
    let res := getBlameInfoForFile env svc p
    if res.1 = [] then (res.2, eds)
    else
      let decorationsArray := computeDecorations res.1 commitHashes
      let eds1 := setEditorDecorations eds p decorationsArray
      if decorationsArray.length > 0 then
        let info : HighlightedFileInfo :=
          { uri := p, highlightCount := decorationsArray.length }
        let hf := mapSet res.2.highlightedFiles p info
        ({ res.2 with highlightedFiles := hf }, eds1)
      else
        ({ res.2 with highlightedFiles := mapErase res.2.highlightedFiles p }, eds1)

/-- `clearHighlighting` (`GitBlameService.ts` lines 146-153): empty both
decoration arrays of the editor and delete the file's
`_highlightedFiles` entry. -/
def clearHighlighting (svc : GitBlameServiceState) (eds : List EditorState)
    (p : String) : GitBlameServiceState × List EditorState :=
  ({ svc with highlightedFiles := mapErase svc.highlightedFiles p },
   setEditorDecorations eds p [])

/-- `clearAllHighlights` (`GitBlameService.ts` lines 158-165): empty the
decorations of every visible editor and clear `_highlightedFiles`. -/
def clearAllHighlights (svc : GitBlameServiceState) (eds : List EditorState) :
    GitBlameServiceState × List EditorState :=
  ({ svc with highlightedFiles := [] },
   eds.map (fun e => { e with decorations := [] }))

/-- `clearBlameCache` (`GitBlameService.ts` lines 177-179). -/
def clearBlameCache (svc : GitBlameServiceState) (p : String) :
    GitBlameServiceState :=
  { svc with blameCache := mapErase svc.blameCache p }

/-- `clearAllBlameCache` (`GitBlameService.ts` lines 184-186). -/
def clearAllBlameCache (svc : GitBlameServiceState) : GitBlameServiceState :=
  { svc with blameCache := [] }

/-- `getFilesForCommit` (`GitBlameService.ts` lines 249-261): split the
`git diff-tree` output on newlines, keep the non-blank lines, and return
`[]` on process failure. -/
def getFilesForCommit (env : GitEnv) (commit cwd : String) : List String :=
  match env.gitDiffTree cwd commit with
  | Except.error _ => []
  | Except.ok out => (jsSplitNewline out).filter (fun l => (jsTrim l).length > 0)

/-- `resolveChangeId` (`GitBlameService.ts` lines 303-317): trim the
`git log --grep` output, return it when non-empty, `none` when empty or
on process failure. -/
def resolveChangeId (env : GitEnv) (changeId cwd : String) : Option String :=
  match env.gitLogGrep cwd changeId with
  | Except.error _ => none
  | Except.ok out => if (jsTrim out).length > 0 then some (jsTrim out) else none

/-- The commit an identifier stands for in `updateFilesForCommits`
(`GitBlameService.ts` lines 277-288): a Change-Id (leading `I`) resolves
through `resolveChangeId` or is dropped, anything else is used verbatim. -/
def effCommit (env : GitEnv) (root ident : String) : Option String :=
  if jsStartsWith ident "I" then resolveChangeId env ident root else some ident

/-- The inner file loop of `updateFilesForCommits` (`GitBlameService.ts`
lines 291-297): each changed file is joined to the workspace root and
stored with `highlightCount: 1`. -/
def addFiles (root : String) : List (String × HighlightedFileInfo) →
    List String → List (String × HighlightedFileInfo)
  | hf, [] => hf
  | hf, f :: rest =>
    addFiles root
      (mapSet hf (pathJoin root f) { uri := pathJoin root f, highlightCount := 1 })
      rest

/-- The identifier loop of `updateFilesForCommits` (`GitBlameService.ts`
lines 277-298): resolve symbolic identifiers, skip (with a warning) the
unresolvable ones, and fold each resolved commit's changed files into
the index. -/
def processIdentifiers (env : GitEnv) (root : String) :
    List String → List (String × HighlightedFileInfo) →
    List (String × HighlightedFileInfo)
  | [], hf => hf
  | ident :: rest, hf =>
    match effCommit env root ident with
    | none => processIdentifiers env root rest hf
    | some commit =>
      processIdentifiers env root rest
        (addFiles root hf (getFilesForCommit env commit root))

/-- `updateFilesForCommits` (`GitBlameService.ts` lines 268-301): clear
`_highlightedFiles` first, stop there when no workspace folder exists,
otherwise rebuild the index from the identifier list. -/
def updateFilesForCommits (env : GitEnv) (svc : GitBlameServiceState)
    (commitIdentifiers : List String) : GitBlameServiceState :=
  match env.workspaceFolders with
  | none => { svc with highlightedFiles := [] }
  | some root =>
    { svc with highlightedFiles := processIdentifiers env root commitIdentifiers [] }

/-- The state of `SidebarProvider` (`SidebarProvider.ts` lines 5-8)
together with the service state and the visible editors of the host:
`_commitHashes`, `_isHighlightingEnabled`, the owned `GitBlameService`,
`vscode.window.visibleTextEditors` and the path of
`vscode.window.activeTextEditor`. -/
structure SystemState where
  commitHashes : List String
  isHighlightingEnabled : Bool
  service : GitBlameServiceState
  editors : List EditorState
  activePath : Option String
deriving Repr

/-- `highlightActiveEditor`'s per-editor work (`SidebarProvider.ts`
lines 288-302): clear the editor's highlighting, then apply it again
when highlighting is enabled and the hash list is non-empty. -/
def highlightOneEditor (env : GitEnv) (svc : GitBlameServiceState)
    (eds : List EditorState) (p : String) (hashes : List String)
    (enabled : Bool) : GitBlameServiceState × List EditorState :=
  let cleared := clearHighlighting svc eds p
  if enabled = true ∧ hashes ≠ [] then
    applyHighlighting env cleared.1 cleared.2 p hashes
  else cleared

/-- `triggerHighlighting` (`SidebarProvider.ts` lines 283-316):
`highlightActiveEditor` followed by `highlightAllVisibleEditors`, which
returns early unless enabled with a non-empty hash list and skips the
active editor. -/
def triggerHighlighting (env : GitEnv) (st : SystemState) : SystemState :=
  let afterActive :=
    match st.activePath with
    | none => (st.service, st.editors)
    | some p =>
      highlightOneEditor env st.service st.editors p st.commitHashes
        st.isHighlightingEnabled
  if st.isHighlightingEnabled = true ∧ st.commitHashes ≠ [] then
    let folded := (st.editors.map (fun e => e.path)).foldl
      (fun acc q =>
        if st.activePath = some q then acc
        else
          let c := clearHighlighting acc.1 acc.2 q
          applyHighlighting env c.1 c.2 q st.commitHashes)
      afterActive
    { st with service := folded.1, editors := folded.2 }
  else { st with service := afterActive.1, editors := afterActive.2 }

/-- The `onDidChangeTextDocument` listener (`SidebarProvider.ts` lines
22-30): only when the edited document is the active editor's document
and highlighting is enabled does it clear that file's blame cache and
re-trigger highlighting; otherwise nothing happens. -/
def onDocumentEdited (env : GitEnv) (st : SystemState) (editedPath : String) :
    SystemState :=
  if st.activePath = some editedPath ∧ st.isHighlightingEnabled = true then
    triggerHighlighting env
      { st with service := clearBlameCache st.service editedPath }
  else st

/-- The `updateCommitHashes` message case (`SidebarProvider.ts` lines
49-66).  `JSON.stringify` on two string arrays is equal exactly when the
arrays are element-for-element equal, so the guard is list equality.
When the lists differ: store the new list, clear the whole blame cache,
and when enabled with a non-empty list run `updateFilesForCommits` and
`triggerHighlighting`.  `saveState` only posts a webview message. -/
def updateCommitHashes (env : GitEnv) (st : SystemState)
    (newHashes : List String) : SystemState :=
  if st.commitHashes = newHashes then st
  else
    if st.isHighlightingEnabled = true ∧ newHashes ≠ [] then
      triggerHighlighting env
        { st with
            commitHashes := newHashes,
            service := updateFilesForCommits env (clearAllBlameCache st.service) newHashes }
    else
      { st with commitHashes := newHashes,
                service := clearAllBlameCache st.service }

/-- The `toggleHighlighting` message case (`SidebarProvider.ts` lines
67-84): store the flag; when turning on, run `updateFilesForCommits`
for a non-empty hash list and then `triggerHighlighting`; when turning
off, run `clearAllHighlights`. -/
def toggleHighlighting (env : GitEnv) (st : SystemState) (value : Bool) :
    SystemState :=
  let st1 := { st with isHighlightingEnabled := value }
  if value then
    let st2 :=
      if st1.commitHashes ≠ [] then
        { st1 with service := updateFilesForCommits env st1.service st1.commitHashes }
      else st1
    triggerHighlighting env st2
  else
    let cleared := clearAllHighlights st1.service st1.editors
    { st1 with service := cleared.1, editors := cleared.2 }

/-- Concrete environment used by the witnesses: one workspace root,
blame output with two commits, one changed file per commit, and a
resolvable Change-Id. -/
def envA : GitEnv :=
  { workspaceFolder := fun _ => some "/w"
    workspaceFolders := some "/w"
    gitBlame := fun _ _ => Except.ok "aaa x\nbbb y\nbbb z"
    gitDiffTree := fun _ _ => Except.ok "f.txt\n"
    gitLogGrep := fun _ _ => Except.ok "ccc\n" }

/-- Concrete environment whose blame query fails. -/
def envErr : GitEnv :=
  { workspaceFolder := fun _ => some "/w"
    workspaceFolders := none
    gitBlame := fun _ _ => Except.error "not a git repository"
    gitDiffTree := fun _ _ => Except.error "bad commit"
    gitLogGrep := fun _ _ => Except.error "bad query" }

/-- Concrete environment with no workspace folder at all. -/
def envNoWs : GitEnv :=
  { workspaceFolder := fun _ => none
    workspaceFolders := none
    gitBlame := fun _ _ => Except.error "unreachable"
    gitDiffTree := fun _ _ => Except.error "unreachable"
    gitLogGrep := fun _ _ => Except.error "unreachable" }

/-- Concrete system state used by counterexamples and witnesses: one
cached blame record for the active file, highlighting disabled. -/
def stDisabled : SystemState :=
  { commitHashes := ["aaa"]
    isHighlightingEnabled := false
    service :=
      { blameCache := [("/w/f", [{ hash := "aaa", lines := [0] }])]
        highlightedFiles := [] }
    editors := [{ path := "/w/f", decorations := [] }]
    activePath := some "/w/f" }

/-- Concrete system state with highlighting enabled, a cached record for
a non-active file `/w/g`, and `/w/f` active. -/
def stEnabledOther : SystemState :=
  { commitHashes := ["aaa"]
    isHighlightingEnabled := true
    service :=
      { blameCache := [("/w/g", [{ hash := "aaa", lines := [0] }])]
        highlightedFiles := [] }
    editors := [{ path := "/w/f", decorations := [] }]
    activePath := some "/w/f" }

/-- Concrete system state with highlighting enabled, a cached record for
the active file `/w/f`. -/
def stEnabledActive : SystemState :=
  { commitHashes := ["aaa"]
    isHighlightingEnabled := true
    service :=
      { blameCache := [("/w/f", [{ hash := "aaa", lines := [0] }])]
        highlightedFiles := [] }
    editors := [{ path := "/w/f", decorations := [] }]
    activePath := some "/w/f" }

/-- Concrete enabled system state with two active hashes, used to witness
the order-sensitive comparison of `updateCommitHashes`. -/
def stTwoHashes : SystemState :=
  { commitHashes := ["h1", "h2"]
    isHighlightingEnabled := true
    service :=
      { blameCache := [("/w/f", [{ hash := "h1", lines := [0] }])]
        highlightedFiles := [] }
    editors := [{ path := "/w/f", decorations := [] }]
    activePath := some "/w/f" }

/-- Concrete environment with an unresolvable Change-Id (`git log --grep`
returns empty output) and two files per commit. -/
def envB : GitEnv :=
  { workspaceFolder := fun _ => some "/w"
    workspaceFolders := some "/w"
    gitBlame := fun _ _ => Except.ok "aaa x"
    gitDiffTree := fun _ _ => Except.ok "f.txt\ng.txt"
    gitLogGrep := fun _ _ => Except.ok "" }

/-- Concrete service state with a stale highlighted-file index entry. -/
def svc0 : GitBlameServiceState :=
  { blameCache := []
    highlightedFiles := [("/old", { uri := "/old", highlightCount := 3 })] }

/-- The blame record `envA`'s blame output parses to. -/
def rC1 : List BlameInfo :=
  [{ hash := "aaa", lines := [0] }, { hash := "bbb", lines := [1, 2] }]

theorem mapHasKey_iff {α : Type} (m : List (String × α)) (k : String) :
    mapHasKey m k = true ↔ ∃ p ∈ m, p.1 = k := by
  simp [mapHasKey, List.any_eq_true]

theorem mapErase_mapErase {α : Type} (m : List (String × α)) (k : String) :
    mapErase (mapErase m k) k = mapErase m k := by
  induction m with
  | nil => rfl
  | cons p rest ih =>
    by_cases h : p.1 = k <;> simp [mapErase, h, ih]

theorem mapErase_append {α : Type} (m m' : List (String × α)) (k : String) :
    mapErase (m ++ m') k = mapErase m k ++ mapErase m' k := by
  induction m with
  | nil => rfl
  | cons p rest ih =>
    by_cases h : p.1 = k <;> simp [mapErase, h, ih]

theorem mapErase_map_update {α : Type} (m : List (String × α)) (k : String) (v : α) :
    mapErase (m.map (fun p => if p.1 = k then (k, v) else p)) k = mapErase m k := by
  induction m with
  | nil => rfl
  | cons p rest ih =>
    by_cases h : p.1 = k <;> simp [mapErase, h, ih]

theorem mapErase_mapSet_self {α : Type} (m : List (String × α)) (k : String) (v : α) :
    mapErase (mapSet m k v) k = mapErase m k := by
  unfold mapSet
  by_cases h : mapHasKey m k <;>
    simp [h, mapErase_map_update, mapErase_append, mapErase]

theorem mapLookup_append_of_not_hasKey {α : Type} (m : List (String × α))
    (k : String) (v : α) (h : mapHasKey m k = false) :
    mapLookup (m ++ [(k, v)]) k = some v := by
  induction m with
  | nil => simp [mapLookup]
  | cons p rest ih =>
    simp [mapHasKey, List.any_cons] at h
    have hrest : mapHasKey rest k = false := by
      simp [mapHasKey]
      exact h.2
    simp [mapLookup, h.1, ih hrest]

theorem mapLookup_map_update {α : Type} (m : List (String × α)) (k : String)
    (v : α) (h : mapHasKey m k = true) :
    mapLookup (m.map (fun p => if p.1 = k then (k, v) else p)) k = some v := by
  induction m with
  | nil => simp [mapHasKey] at h
  | cons p rest ih =>
    by_cases hp : p.1 = k
    · simp [mapLookup, hp]
    · have hrest : mapHasKey rest k = true := by
        simp [mapHasKey, List.any_cons, hp] at h
        simp [mapHasKey, List.any_eq_true]
        exact h
      simp [mapLookup, hp, ih hrest]

theorem mapLookup_mapSet_self {α : Type} (m : List (String × α)) (k : String)
    (v : α) : mapLookup (mapSet m k v) k = some v := by
  unfold mapSet
  by_cases h : mapHasKey m k
  · simp [h, mapLookup_map_update m k v h]
  · simp [h, mapLookup_append_of_not_hasKey m k v (by simp [h])]

theorem setEditorDecorations_set (eds : List EditorState) (p : String)
    (d₁ d₂ : List Decoration) :
    setEditorDecorations (setEditorDecorations eds p d₁) p d₂ =
      setEditorDecorations eds p d₂ := by
  induction eds with
  | nil => rfl
  | cons e rest ih =>
    by_cases h : e.path = p <;> simp [setEditorDecorations, h] at ih ⊢ <;>
      exact ih

theorem count_singleton_nat (i n : Nat) : List.count n [i] = if n = i then 1 else 0 := by
  by_cases hni : n = i
  · subst hni; simp
  · simp [List.count_cons, hni, Ne.symm hni]

theorem hasHash_iff (m : List BlameInfo) (h : String) :
    hasHash m h = true ↔ h ∈ blameKeys m := by
  simp only [hasHash, List.any_eq_true, beq_iff_eq, blameKeys, List.mem_map]

theorem updateBucket_hash (h : String) (i : Nat) (b : BlameInfo) :
    (if b.hash = h then { b with lines := b.lines ++ [i] } else b).hash = b.hash := by
  by_cases hb : b.hash = h <;> simp [hb]

theorem blameKeys_map_update (m : List BlameInfo) (h : String) (i : Nat) :
    blameKeys (m.map (fun b =>
      if b.hash = h then { b with lines := b.lines ++ [i] } else b)) =
      blameKeys m := by
  unfold blameKeys
  rw [List.map_map]
  exact List.map_congr_left (fun b _ => updateBucket_hash h i b)

theorem blameKeys_insertLine (m : List BlameInfo) (h : String) (i : Nat) :
    blameKeys (insertLine m h i) =
      if h ∈ blameKeys m then blameKeys m else blameKeys m ++ [h] := by
  unfold insertLine
  by_cases hm : hasHash m h = true
  · rw [if_pos hm, if_pos ((hasHash_iff m h).mp hm), blameKeys_map_update]
  · rw [if_neg hm, if_neg (fun hh => hm ((hasHash_iff m h).mpr hh))]
    simp [blameKeys]

theorem blameKeys_nodup_insertLine (m : List BlameInfo) (h : String) (i : Nat)
    (hn : (blameKeys m).Nodup) : (blameKeys (insertLine m h i)).Nodup := by
  rw [blameKeys_insertLine]
  by_cases hm : h ∈ blameKeys m
  · simpa [hm]
  · simp [hm, List.nodup_append, hn]

theorem occ_cons (b : BlameInfo) (m : List BlameInfo) (n : Nat) :
    occ (b :: m) n = b.lines.count n + occ m n := by
  simp [occ]

theorem occ_append (m m' : List BlameInfo) (n : Nat) :
    occ (m ++ m') n = occ m n + occ m' n := by
  simp [occ]

theorem map_update_id (m : List BlameInfo) (h : String) (i : Nat)
    (hm : h ∉ blameKeys m) :
    m.map (fun b => if b.hash = h then { b with lines := b.lines ++ [i] } else b)
      = m := by
  conv_rhs => rw [← List.map_id m]
  apply List.map_congr_left
  intro b hb
  have hmem : b.hash ∈ blameKeys m := List.mem_map_of_mem _ hb
  have hne : ¬b.hash = h := fun e => hm (e ▸ hmem)
  simp [hne]

theorem occ_insertLine (m : List BlameInfo) (h : String) (i n : Nat)
    (hk : (blameKeys m).Nodup) :
    occ (insertLine m h i) n = occ m n + (if n = i then 1 else 0) := by
  unfold insertLine
  by_cases hm : hasHash m h = true
  · rw [if_pos hm]
    have hmem := (hasHash_iff m h).mp hm
    clear hm
    induction m with
    | nil => simp [blameKeys] at hmem
    | cons b rest ih =>
      have hk2 : b.hash ∉ blameKeys rest ∧ (blameKeys rest).Nodup :=
        List.nodup_cons.mp hk
      rw [List.map_cons, occ_cons, occ_cons]
      by_cases hb : b.hash = h
      · rw [if_pos hb, map_update_id rest h i (hb ▸ hk2.1)]
        have hcnt : ({ b with lines := b.lines ++ [i] } : BlameInfo).lines.count n =
            b.lines.count n + (if n = i then 1 else 0) := by
          simp only [List.count_append, count_singleton_nat]
        rw [hcnt]
        omega
      · have hmrest : h ∈ blameKeys rest := by
          rcases List.mem_cons.mp (show h ∈ b.hash :: blameKeys rest from hmem) with
            he | hr
          · exact absurd he.symm hb
          · exact hr
        rw [if_neg hb, ih hk2.2 hmrest]
        omega
  · rw [if_neg hm, occ_append]
    have hocc : occ [{ hash := h, lines := [i] }] n = if n = i then 1 else 0 := by
      simp [occ, count_singleton_nat]
    rw [hocc]

theorem blameKeys_nodup_processLines : ∀ (ls : List String) (i : Nat)
    (m : List BlameInfo), (blameKeys m).Nodup →
    (blameKeys (processLines i ls m)).Nodup
  | [], _, _, hm => hm
  | line :: rest, i, m, hm => by
    unfold processLines
    cases hl : lineToken line with
    | none => exact blameKeys_nodup_processLines rest (i + 1) m hm
    | some h =>
      exact blameKeys_nodup_processLines rest (i + 1) _
        (blameKeys_nodup_insertLine m h i hm)

theorem occ_processLines : ∀ (ls : List String) (i : Nat) (m : List BlameInfo)
    (n : Nat), (blameKeys m).Nodup →
    occ (processLines i ls m) n = occ m n + countTok i ls n
  | [], i, m, n, _ => by simp [processLines, countTok]
  | line :: rest, i, m, n, hm => by
    unfold processLines countTok
    cases hl : lineToken line with
    | none =>
      rw [occ_processLines rest (i + 1) m n hm]
      simp [hl]
    | some h =>
      rw [occ_processLines rest (i + 1) _ n (blameKeys_nodup_insertLine m h i hm)]
      rw [occ_insertLine m h i n hm]
      by_cases hni : n = i
      · subst hni
        simp [hl]
        omega
      · have : ¬(i = n ∧ (Option.some h).isSome) := fun e => hni e.1.symm
        simp [hni, this]
        omega

theorem countTok_eq_zero_of_lt : ∀ (ls : List String) (i n : Nat), n < i →
    countTok i ls n = 0
  | [], _, _, _ => rfl
  | l :: rest, i, n, h => by
    unfold countTok
    rw [countTok_eq_zero_of_lt rest (i + 1) n (Nat.lt_succ_of_lt h)]
    have hne : ¬(i = n ∧ (lineToken l).isSome) := by
      rintro ⟨rfl, -⟩
      exact absurd h (lt_irrefl i)
    simp [hne]

theorem countTok_eq_zero_of_ge : ∀ (ls : List String) (i n : Nat),
    i + ls.length ≤ n → countTok i ls n = 0
  | [], _, _, _ => rfl
  | l :: rest, i, n, h => by
    unfold countTok
    have hlen : i + (l :: rest).length = i + rest.length + 1 := by
      simp [List.length_cons]
      omega
    rw [countTok_eq_zero_of_ge rest (i + 1) n (by rw [hlen] at h; omega)]
    have hne : ¬(i = n ∧ (lineToken l).isSome) := by
      rintro ⟨rfl, -⟩
      rw [hlen] at h
      omega
    simp [hne]

theorem countTok_le_one : ∀ (ls : List String) (i n : Nat), countTok i ls n ≤ 1
  | [], _, _ => by simp [countTok]
  | l :: rest, i, n => by
    unfold countTok
    by_cases hin : i = n
    · subst hin
      rw [countTok_eq_zero_of_lt rest (i + 1) i (Nat.lt_succ_self i)]
      split <;> simp
    · have htail := countTok_le_one rest (i + 1) n
      have hne : ¬(i = n ∧ (lineToken l).isSome) := fun e => hin e.1
      simp [hne]
      exact htail

theorem countTok_get : ∀ (ls : List String) (i k : Nat) (hk : k < ls.length),
    countTok i ls (i + k) =
      if (lineToken (ls.get ⟨k, hk⟩)).isSome then 1 else 0
  | [], _, k, hk => absurd hk (by simp)
  | l :: rest, i, 0, hk => by
    unfold countTok
    rw [countTok_eq_zero_of_lt rest (i + 1) (i + 0) (by omega)]
    simp
  | l :: rest, i, k + 1, hk => by
    unfold countTok
    have h1 : i + (k + 1) = (i + 1) + k := by omega
    rw [h1, countTok_get rest (i + 1) k (by simpa using hk)]
    have hne : ¬(i = (i + 1) + k ∧ (lineToken l).isSome) := by
      rintro ⟨he, -⟩
      omega
    simp [hne]

theorem occ_pos_iff (m : List BlameInfo) (n : Nat) :
    0 < occ m n ↔ ∃ b ∈ m, n ∈ b.lines := by
  induction m with
  | nil => simp [occ]
  | cons b rest ih =>
    rw [occ_cons]
    constructor
    · intro hpos
      rcases Nat.lt_or_ge 0 (b.lines.count n) with hc | hc
      · exact ⟨b, List.mem_cons_self b rest, List.count_pos_iff.mp hc⟩
      · have : 0 < occ rest n := by omega
        rcases ih.mp this with ⟨b', hb', hn'⟩
        exact ⟨b', List.mem_cons_of_mem b hb', hn'⟩
    · rintro ⟨b', hb', hn'⟩
      rcases List.mem_cons.mp hb' with rfl | hb'
      · have := List.count_pos_iff.mpr hn'
        omega
      · have := ih.mpr ⟨b', hb', hn'⟩
        omega

theorem count_le_occ (m : List BlameInfo) (b : BlameInfo) (n : Nat)
    (hb : b ∈ m) : b.lines.count n ≤ occ m n := by
  induction m with
  | nil => simp at hb
  | cons c rest ih =>
    rw [occ_cons]
    rcases List.mem_cons.mp hb with rfl | hb
    · exact Nat.le_add_right _ _
    · exact (ih hb).trans (Nat.le_add_left _ _)

theorem parse_keysNodup (out : String) : (blameKeys (parseBlameOutput out)).Nodup :=
  blameKeys_nodup_processLines _ 0 [] (by simp [blameKeys])

theorem parse_occ_le_one (out : String) (n : Nat) :
    occ (parseBlameOutput out) n ≤ 1 := by
  unfold parseBlameOutput
  rw [occ_processLines _ 0 [] n (by simp [blameKeys])]
  simpa [occ] using countTok_le_one (jsSplitNewline out) 0 n

theorem parse_lines_nodup (out : String) : ∀ b ∈ parseBlameOutput out,
    b.lines.Nodup := by
  intro b hb
  rw [List.nodup_iff_count_le_one]
  intro n
  exact (count_le_occ _ b n hb).trans (parse_occ_le_one out n)

theorem pairwise_disjoint_of_occ_le_one : ∀ (m : List BlameInfo),
    (∀ n, occ m n ≤ 1) →
    m.Pairwise (fun b₁ b₂ => ∀ n, n ∈ b₁.lines → n ∉ b₂.lines)
  | [], _ => List.Pairwise.nil
  | b :: rest, h => by
    constructor
    · intro b' hb' n hnb hnb'
      have h1 : 0 < b.lines.count n := List.count_pos_iff.mpr hnb
      have h2 : 0 < occ rest n := (occ_pos_iff rest n).mpr ⟨b', hb', hnb'⟩
      have h3 := h n
      rw [occ_cons] at h3
      omega
    · refine pairwise_disjoint_of_occ_le_one rest (fun n => ?_)
      have h3 := h n
      rw [occ_cons] at h3
      omega

theorem parse_pairwise_disjoint (out : String) :
    (parseBlameOutput out).Pairwise (fun b₁ b₂ => ∀ n, n ∈ b₁.lines → n ∉ b₂.lines) :=
  pairwise_disjoint_of_occ_le_one _ (parse_occ_le_one out)

theorem parse_complete (out : String) (k : Nat)
    (hk : k < (jsSplitNewline out).length)
    (htok : (lineToken ((jsSplitNewline out).get ⟨k, hk⟩)).isSome = true) :
    ∃ b ∈ parseBlameOutput out, k ∈ b.lines := by
  rw [← occ_pos_iff]
  unfold parseBlameOutput
  rw [occ_processLines _ 0 [] k (by simp [blameKeys])]
  have hcg := countTok_get (jsSplitNewline out) 0 k hk
  rw [Nat.zero_add] at hcg
  have hocc0 : occ ([] : List BlameInfo) k = 0 := rfl
  rw [hocc0, Nat.zero_add, hcg, if_pos htok]
  exact Nat.zero_lt_one

theorem parse_sound (out : String) (b : BlameInfo)
    (hb : b ∈ parseBlameOutput out) (n : Nat) (hn : n ∈ b.lines) :
    ∃ hlt : n < (jsSplitNewline out).length,
      (lineToken ((jsSplitNewline out).get ⟨n, hlt⟩)).isSome = true := by
  have hpos : 0 < occ (parseBlameOutput out) n := (occ_pos_iff _ n).mpr ⟨b, hb, hn⟩
  unfold parseBlameOutput at hpos
  rw [occ_processLines _ 0 [] n (by simp [blameKeys])] at hpos
  simp only [occ, List.map_nil, List.sum_nil, Nat.zero_add] at hpos
  have hlt : n < (jsSplitNewline out).length := by
    by_contra hge
    rw [countTok_eq_zero_of_ge _ 0 n (by omega)] at hpos
    exact absurd hpos (lt_irrefl 0)
  refine ⟨hlt, ?_⟩
  have hcg := countTok_get (jsSplitNewline out) 0 n hlt
  rw [Nat.zero_add] at hcg
  cases hsome : (lineToken ((jsSplitNewline out).get ⟨n, hlt⟩)).isSome with
  | true => rfl
  | false =>
    rw [hsome] at hcg
    simp at hcg
    omega

theorem keys_processLines : ∀ (ls : List String) (i : Nat) (m : List BlameInfo)
    (b : BlameInfo), b ∈ processLines i ls m →
    b.hash ∈ blameKeys m ∨ ∃ l ∈ ls, lineToken l = some b.hash
  | [], _, _, b, hb => Or.inl (List.mem_map_of_mem _ hb)
  | line :: rest, i, m, b, hb => by
    unfold processLines at hb
    cases hl : lineToken line with
    | none =>
      rw [hl] at hb
      rcases keys_processLines rest (i + 1) m b hb with h | ⟨l, hlmem, hltok⟩
      · exact Or.inl h
      · exact Or.inr ⟨l, List.mem_cons_of_mem _ hlmem, hltok⟩
    | some h =>
      rw [hl] at hb
      rcases keys_processLines rest (i + 1) _ b hb with hk | ⟨l, hlmem, hltok⟩
      · rw [blameKeys_insertLine] at hk
        by_cases hmem : h ∈ blameKeys m
        · rw [if_pos hmem] at hk
          exact Or.inl hk
        · rw [if_neg hmem] at hk
          rcases List.mem_append.mp hk with hk | hk
          · exact Or.inl hk
          · have hbh : b.hash = h := by simpa using hk
            exact Or.inr ⟨line, List.mem_cons_self _ _, by rw [hl, hbh]⟩
      · exact Or.inr ⟨l, List.mem_cons_of_mem _ hlmem, hltok⟩

theorem lineToken_eq (l t : String) (h : lineToken l = some t) :
    t = jsSubstring40 (leadingWordRun l) := by
  unfold lineToken at h
  by_cases h1 : jsTrim l = ""
  · rw [if_pos h1] at h
    exact absurd h (by simp)
  · rw [if_neg h1] at h
    by_cases h2 : leadingWordRun l = ""
    · rw [if_pos h2] at h
      exact absurd h (by simp)
    · rw [if_neg h2] at h
      exact (Option.some_inj.mp h).symm

theorem parse_keys_shape (out : String) (b : BlameInfo)
    (hb : b ∈ parseBlameOutput out) :
    ∃ l ∈ jsSplitNewline out, lineToken l = some b.hash ∧
      b.hash = jsSubstring40 (leadingWordRun l) := by
  rcases keys_processLines _ 0 [] b hb with hk | ⟨l, hlmem, hltok⟩
  · simp [blameKeys] at hk
  · exact ⟨l, hlmem, hltok, lineToken_eq l b.hash hltok⟩

theorem computeDecorations_cons (b : BlameInfo) (rest : List BlameInfo)
    (hs : List String) :
    computeDecorations (b :: rest) hs =
      (if hs.contains b.hash = true then
        b.lines.map (fun n =>
          { line := n, hoverMessage := "Commit: " ++ b.hash })
      else []) ++ computeDecorations rest hs := rfl

theorem computeDecorations_length (r : List BlameInfo) (hs : List String) :
    (computeDecorations r hs).length =
      ((r.filter (fun b => hs.contains b.hash)).map
        (fun b => b.lines.length)).sum := by
  induction r with
  | nil => rfl
  | cons b rest ih =>
    rw [computeDecorations_cons, List.filter_cons, List.length_append, ih]
    by_cases hc : hs.contains b.hash = true
    · rw [if_pos hc, if_pos hc, List.map_cons, List.sum_cons, List.length_map]
    · rw [if_neg hc, if_neg hc]
      simp

theorem computeDecorations_mem (r : List BlameInfo) (hs : List String)
    (d : Decoration) :
    d ∈ computeDecorations r hs ↔
      ∃ b ∈ r, hs.contains b.hash = true ∧ d.line ∈ b.lines ∧
        d.hoverMessage = "Commit: " ++ b.hash := by
  induction r with
  | nil => simp [computeDecorations]
  | cons b rest ih =>
    rw [computeDecorations_cons, List.mem_append, ih]
    constructor
    · rintro (hd | ⟨b', hb', h1, h2, h3⟩)
      · by_cases hc : hs.contains b.hash = true
        · rw [if_pos hc] at hd
          rcases List.mem_map.mp hd with ⟨n, hn, he⟩
          refine ⟨b, List.mem_cons_self _ _, hc, ?_, ?_⟩
          · rw [← he]
            exact hn
          · rw [← he]
        · rw [if_neg hc] at hd
          exact absurd hd (List.not_mem_nil d)
      · exact ⟨b', List.mem_cons_of_mem _ hb', h1, h2, h3⟩
    · rintro ⟨b', hbmem, h1, h2, h3⟩
      rcases List.mem_cons.mp hbmem with rfl | hb'
      · refine Or.inl ?_
        rw [if_pos h1]
        rcases d with ⟨dl, dm⟩
        have h3' : dm = "Commit: " ++ b'.hash := h3
        rw [h3']
        exact List.mem_map.mpr ⟨dl, h2, rfl⟩
      · exact Or.inr ⟨b', hb', h1, h2, h3⟩

theorem map_line_mk (b : BlameInfo) :
    (b.lines.map (fun n =>
      ({ line := n, hoverMessage := "Commit: " ++ b.hash } : Decoration))).map
        (fun d => d.line) = b.lines := by
  rw [List.map_map]
  conv_rhs => rw [← List.map_id b.lines]
  exact List.map_congr_left (fun n _ => rfl)

theorem computeDecorations_line_iff (r : List BlameInfo) (hs : List String)
    (n : Nat) :
    n ∈ (computeDecorations r hs).map (fun d => d.line) ↔
      ∃ b ∈ r, hs.contains b.hash = true ∧ n ∈ b.lines := by
  rw [List.mem_map]
  constructor
  · rintro ⟨d, hd, rfl⟩
    rcases (computeDecorations_mem r hs d).mp hd with ⟨b, hb, h1, h2, -⟩
    exact ⟨b, hb, h1, h2⟩
  · rintro ⟨b, hb, h1, h2⟩
    refine ⟨{ line := n, hoverMessage := "Commit: " ++ b.hash }, ?_, rfl⟩
    exact (computeDecorations_mem r hs _).mpr ⟨b, hb, h1, h2, rfl⟩

theorem computeDecorations_nodup (r : List BlameInfo) (hs : List String)
    (hnd : ∀ b ∈ r, b.lines.Nodup)
    (hpw : r.Pairwise (fun b₁ b₂ => ∀ n, n ∈ b₁.lines → n ∉ b₂.lines)) :
    ((computeDecorations r hs).map (fun d => d.line)).Nodup := by
  induction r with
  | nil => simp [computeDecorations]
  | cons b rest ih =>
    rw [computeDecorations_cons, List.map_append, List.nodup_append]
    obtain ⟨hpw1, hpw2⟩ := List.pairwise_cons.mp hpw
    refine ⟨?_, ih (fun b' hb' => hnd b' (List.mem_cons_of_mem _ hb')) hpw2, ?_⟩
    · by_cases hc : hs.contains b.hash = true
      · rw [if_pos hc, map_line_mk]
        exact hnd b (List.mem_cons_self _ _)
      · rw [if_neg hc]
        simp
    · intro n hn1 hn2
      by_cases hc : hs.contains b.hash = true
      · rw [if_pos hc, map_line_mk] at hn1
        rcases (computeDecorations_line_iff rest hs n).mp hn2 with ⟨b', hb', -, hnb'⟩
        exact hpw1 b' hb' n hn1 hnb'
      · rw [if_neg hc] at hn1
        simp at hn1

/-- Claim C2: `getBlameInfoForFile` (the attribution getter) never throws
to its caller - it is a total function into blame records.  With no
cached entry, when the file has no discoverable workspace folder it
returns the empty record and leaves the state unchanged, and when the
underlying `git blame` query errors it returns the empty record and
leaves the state unchanged. -/
theorem claim2_getBlameInfo_graceful (env : GitEnv)
    (svc : GitBlameServiceState) (p : String)
    (hc : mapLookup svc.blameCache p = none) :
    (env.workspaceFolder p = none → getBlameInfoForFile env svc p = ([], svc)) ∧
    (∀ root e, env.workspaceFolder p = some root →
      env.gitBlame root (pathRelative root p) = Except.error e →
      getBlameInfoForFile env svc p = ([], svc)) := by
  constructor
  · intro hw
    simp [getBlameInfoForFile, hc, hw]
  · intro root e hw hg
    simp [getBlameInfoForFile, hc, hw, hg]

/-- Witness for C2: a concrete file with an empty cache, once in an
environment without a workspace folder and once with a failing blame
query. -/
theorem claim2_witness :
    getBlameInfoForFile envNoWs { blameCache := [], highlightedFiles := [] }
        "/w/f" = ([], { blameCache := [], highlightedFiles := [] }) ∧
    getBlameInfoForFile envErr { blameCache := [], highlightedFiles := [] }
        "/w/f" = ([], { blameCache := [], highlightedFiles := [] }) :=
  ⟨(claim2_getBlameInfo_graceful envNoWs
      { blameCache := [], highlightedFiles := [] } "/w/f" rfl).1 rfl,
   (claim2_getBlameInfo_graceful envErr
      { blameCache := [], highlightedFiles := [] } "/w/f" rfl).2 "/w"
     "not a git repository" rfl rfl⟩

/-- Claim C5: turning highlighting off clears every visible editor's
decorations and empties the highlighted-file index, while leaving the
commit-hash list and the whole blame cache unchanged, so every cached
record present before the call is still present with the same content. -/
theorem claim5_toggleOff (env : GitEnv) (st : SystemState) :
    (toggleHighlighting env st false).isHighlightingEnabled = false ∧
    (∀ e ∈ (toggleHighlighting env st false).editors, e.decorations = []) ∧
    (toggleHighlighting env st false).service.highlightedFiles = [] ∧
    (toggleHighlighting env st false).commitHashes = st.commitHashes ∧
    (toggleHighlighting env st false).service.blameCache =
      st.service.blameCache ∧
    (∀ p rec, mapLookup st.service.blameCache p = some rec →
      mapLookup (toggleHighlighting env st false).service.blameCache p
        = some rec) := by
  refine ⟨rfl, ?_, rfl, rfl, rfl, ?_⟩
  · intro e he
    have he' : e ∈ st.editors.map (fun e => { e with decorations := [] }) := he
    rcases List.mem_map.mp he' with ⟨e', -, rfl⟩
    rfl
  · intro p rec hp
    exact hp

/-- Witness for C5: after toggling off a concrete enabled state, the
index is empty but the cached record of `/w/g` survives unchanged. -/
theorem claim5_witness :
    (toggleHighlighting envA stEnabledOther false).service.highlightedFiles
      = [] ∧
    mapLookup (toggleHighlighting envA stEnabledOther false).service.blameCache
      "/w/g" = some [{ hash := "aaa", lines := [0] }] :=
  ⟨(claim5_toggleOff envA stEnabledOther).2.2.1,
   (claim5_toggleOff envA stEnabledOther).2.2.2.2.2 "/w/g" _ (by decide)⟩

/-- Claim C4: the `updateCommitHashes` handler compares the incoming
list to the stored one with order-sensitive, element-for-element list
equality (`JSON.stringify` equality of string arrays): an identical list
leaves the whole state untouched - no cache invalidation, no recompute -
while any different list, a reordering of the same elements included,
stores the new list, clears the whole blame cache, and, when enabled
with a non-empty list, rebuilds the touched-file index and re-runs
highlighting. -/
theorem claim4_updateCommitHashes (env : GitEnv) (st : SystemState)
    (newHashes : List String) :
    (st.commitHashes = newHashes → updateCommitHashes env st newHashes = st) ∧
    (st.commitHashes ≠ newHashes →
      (¬(st.isHighlightingEnabled = true ∧ newHashes ≠ []) →
        updateCommitHashes env st newHashes =
          { st with commitHashes := newHashes,
                    service := clearAllBlameCache st.service }) ∧
      (st.isHighlightingEnabled = true → newHashes ≠ [] →
        updateCommitHashes env st newHashes =
          triggerHighlighting env
            { st with commitHashes := newHashes,
                      service := updateFilesForCommits env
                        (clearAllBlameCache st.service) newHashes })) := by
  refine ⟨?_, ?_⟩
  · intro he
    unfold updateCommitHashes
    rw [if_pos he]
  · intro hne
    constructor
    · intro hno
      unfold updateCommitHashes
      rw [if_neg hne, if_neg hno]
    · intro hen hne2
      unfold updateCommitHashes
      rw [if_neg hne, if_pos ⟨hen, hne2⟩]

/-- Witness for C4: resending `[h1, h2]` is a no-op, while the reordered
`[h2, h1]` - a permutation of the same elements - takes the
change-detected full-recompute path. -/
theorem claim4_witness :
    updateCommitHashes envA stTwoHashes ["h1", "h2"] = stTwoHashes ∧
    updateCommitHashes envA stTwoHashes ["h2", "h1"] =
      triggerHighlighting envA
        { stTwoHashes with
            commitHashes := ["h2", "h1"],
            service := updateFilesForCommits envA (clearAllBlameCache stTwoHashes.service) ["h2", "h1"] } ∧
    stTwoHashes.commitHashes.Perm ["h2", "h1"] :=
  ⟨(claim4_updateCommitHashes envA stTwoHashes ["h1", "h2"]).1 rfl,
   ((claim4_updateCommitHashes envA stTwoHashes ["h2", "h1"]).2
     (by decide)).2 rfl (by decide),
   by decide⟩

/-- Counterexample to claim C3: a document-edit event does not
invalidate the file's cached `BlameRecord` in every state.  With
highlighting disabled (`stDisabled`), editing the active file `/w/f`
leaves the whole state - the cached record included - unchanged, and the
next `getBlameInfoForFile` still returns the pre-edit cached record.
With highlighting enabled (`stEnabledOther`), editing `/w/g`, which is
not the active editor's document, also leaves its cached record in
place. -/
theorem claim3_counterexample :
    onDocumentEdited envA stDisabled "/w/f" = stDisabled ∧
    mapLookup (onDocumentEdited envA stDisabled "/w/f").service.blameCache
      "/w/f" = some [{ hash := "aaa", lines := [0] }] ∧
    (getBlameInfoForFile envA
      (onDocumentEdited envA stDisabled "/w/f").service "/w/f").1
      = [{ hash := "aaa", lines := [0] }] ∧
    onDocumentEdited envA stEnabledOther "/w/g" = stEnabledOther ∧
    mapLookup (onDocumentEdited envA stEnabledOther "/w/g").service.blameCache
      "/w/g" = some [{ hash := "aaa", lines := [0] }] := by
  refine ⟨rfl, by decide, by decide, rfl, by decide⟩

/-- Claim C3 amended: a document-edit event invalidates the file's
cached `BlameRecord` only when the edited document is the active
editor's document and highlighting is enabled; in that case the handler
removes the cached entry and then recomputes and reapplies highlighting,
so the recompute is independent of the pre-edit cached record (the next
`getAttribution` cannot return it); in every other case - highlighting
disabled, or the edit not on the active document - nothing changes and
the pre-edit cached record stays. -/
theorem claim3_amended (env : GitEnv) (st : SystemState) (p : String) :
    (¬(st.activePath = some p ∧ st.isHighlightingEnabled = true) →
      onDocumentEdited env st p = st) ∧
    (st.activePath = some p → st.isHighlightingEnabled = true →
      onDocumentEdited env st p =
        triggerHighlighting env
          { st with service := clearBlameCache st.service p } ∧
      onDocumentEdited env st p =
        onDocumentEdited env
          { st with service := clearBlameCache st.service p } p) := by
  constructor
  · intro h
    unfold onDocumentEdited
    rw [if_neg h]
  · intro h1 h2
    constructor
    · unfold onDocumentEdited
      rw [if_pos ⟨h1, h2⟩]
    · unfold onDocumentEdited
      rw [if_pos ⟨h1, h2⟩, if_pos ⟨h1, h2⟩]
      have hsvc : clearBlameCache (clearBlameCache st.service p) p =
          clearBlameCache st.service p := by
        simp only [clearBlameCache, mapErase_mapErase]
      rw [show clearBlameCache
          ({ st with service := clearBlameCache st.service p } :
            SystemState).service p = clearBlameCache st.service p from hsvc]

/-- Witness for the amended C3: in a concrete enabled state, editing the
active file removes the cached record before the recompute. -/
theorem claim3_witness :
    onDocumentEdited envA stEnabledActive "/w/f" =
      triggerHighlighting envA
        { stEnabledActive with
            service := clearBlameCache stEnabledActive.service "/w/f" } ∧
    onDocumentEdited envA stDisabled "/w/f" = stDisabled :=
  ⟨((claim3_amended envA stEnabledActive "/w/f").2 rfl rfl).1,
   (claim3_amended envA stDisabled "/w/f").1 (by decide)⟩

theorem mem_keysOf_mapSet {α : Type} (m : List (String × α)) (k : String)
    (v : α) (q : String) :
    q ∈ (mapSet m k v).map Prod.fst ↔ q ∈ m.map Prod.fst ∨ q = k := by
  unfold mapSet
  by_cases h : mapHasKey m k = true
  · rw [if_pos h]
    have hkeys : (m.map (fun p => if p.1 = k then (k, v) else p)).map Prod.fst
        = m.map Prod.fst := by
      rw [List.map_map]
      apply List.map_congr_left
      intro p _
      by_cases hp : p.1 = k <;> simp [hp]
    rw [hkeys]
    constructor
    · exact Or.inl
    · rintro (hq | rfl)
      · exact hq
      · rcases (mapHasKey_iff m q).mp h with ⟨p, hp, hpk⟩
        exact List.mem_map.mpr ⟨p, hp, hpk⟩
  · rw [if_neg h, List.map_append]
    simp [List.mem_append]

theorem values_mapSet {α : Type} (m : List (String × α)) (k : String) (v : α)
    (q : String) (i : α) (hqi : (q, i) ∈ mapSet m k v) :
    (q, i) ∈ m ∨ (q = k ∧ i = v) := by
  unfold mapSet at hqi
  by_cases h : mapHasKey m k = true
  · rw [if_pos h] at hqi
    rcases List.mem_map.mp hqi with ⟨p, hp, he⟩
    by_cases hpk : p.1 = k
    · rw [if_pos hpk] at he
      injection he with h1 h2
      exact Or.inr ⟨h1.symm, h2.symm⟩
    · rw [if_neg hpk] at he
      rw [he] at hp
      exact Or.inl hp
  · rw [if_neg h] at hqi
    rcases List.mem_append.mp hqi with hm | hsing
    · exact Or.inl hm
    · have he : (q, i) = (k, v) := by simpa using hsing
      injection he with h1 h2
      exact Or.inr ⟨h1, h2⟩

theorem mem_keysOf_addFiles : ∀ (files : List String)
    (hf : List (String × HighlightedFileInfo)) (root q : String),
    q ∈ (addFiles root hf files).map Prod.fst ↔
      q ∈ hf.map Prod.fst ∨ ∃ f ∈ files, q = pathJoin root f
  | [], hf, root, q => by simp [addFiles]
  | f :: rest, hf, root, q => by
    unfold addFiles
    rw [mem_keysOf_addFiles rest _ root q, mem_keysOf_mapSet]
    constructor
    · rintro ((hq | rfl) | ⟨f', hf', rfl⟩)
      · exact Or.inl hq
      · exact Or.inr ⟨f, List.mem_cons_self _ _, rfl⟩
      · exact Or.inr ⟨f', List.mem_cons_of_mem _ hf', rfl⟩
    · rintro (hq | ⟨f', hf'mem, rfl⟩)
      · exact Or.inl (Or.inl hq)
      · rcases List.mem_cons.mp hf'mem with rfl | hf'
        · exact Or.inl (Or.inr rfl)
        · exact Or.inr ⟨f', hf', rfl⟩

theorem values_addFiles : ∀ (files : List String)
    (hf : List (String × HighlightedFileInfo)) (root q : String)
    (i : HighlightedFileInfo), (q, i) ∈ addFiles root hf files →
    (q, i) ∈ hf ∨ (i.uri = q ∧ i.highlightCount = 1)
  | [], _, _, _, _, h => Or.inl h
  | f :: rest, hf, root, q, i, h => by
    unfold addFiles at h
    rcases values_addFiles rest _ root q i h with hm | hv
    · rcases values_mapSet hf (pathJoin root f) _ q i hm with hm' | ⟨he1, he2⟩
      · exact Or.inl hm'
      · rw [he2]
        exact Or.inr ⟨he1.symm, rfl⟩
    · exact Or.inr hv

theorem mem_keysOf_processIdentifiers : ∀ (ids : List String) (env : GitEnv)
    (root : String) (hf : List (String × HighlightedFileInfo)) (q : String),
    q ∈ (processIdentifiers env root ids hf).map Prod.fst ↔
      q ∈ hf.map Prod.fst ∨ ∃ ident ∈ ids, ∃ c,
        effCommit env root ident = some c ∧
        ∃ f ∈ getFilesForCommit env c root, q = pathJoin root f
  | [], env, root, hf, q => by simp [processIdentifiers]
  | ident :: rest, env, root, hf, q => by
    unfold processIdentifiers
    cases hc : effCommit env root ident with
    | none =>
      rw [mem_keysOf_processIdentifiers rest env root hf q]
      constructor
      · rintro (hq | ⟨id2, hid2, more⟩)
        · exact Or.inl hq
        · exact Or.inr ⟨id2, List.mem_cons_of_mem _ hid2, more⟩
      · rintro (hq | ⟨id2, hid2mem, c, hcc, hfile⟩)
        · exact Or.inl hq
        · rcases List.mem_cons.mp hid2mem with rfl | hid2
          · rw [hc] at hcc
            exact absurd hcc (by simp)
          · exact Or.inr ⟨id2, hid2, c, hcc, hfile⟩
    | some commit =>
      rw [mem_keysOf_processIdentifiers rest env root _ q, mem_keysOf_addFiles]
      constructor
      · rintro ((hq | ⟨f, hfmem, rfl⟩) | ⟨id2, hid2, more⟩)
        · exact Or.inl hq
        · exact Or.inr ⟨ident, List.mem_cons_self _ _, commit, hc, f, hfmem, rfl⟩
        · exact Or.inr ⟨id2, List.mem_cons_of_mem _ hid2, more⟩
      · rintro (hq | ⟨id2, hid2mem, c, hcc, f, hfmem, rfl⟩)
        · exact Or.inl (Or.inl hq)
        · rcases List.mem_cons.mp hid2mem with rfl | hid2
          · rw [hc] at hcc
            injection hcc with hceq
            subst hceq
            exact Or.inl (Or.inr ⟨f, hfmem, rfl⟩)
          · exact Or.inr ⟨id2, hid2, c, hcc, f, hfmem, rfl⟩

theorem values_processIdentifiers : ∀ (ids : List String) (env : GitEnv)
    (root : String) (hf : List (String × HighlightedFileInfo)) (q : String)
    (i : HighlightedFileInfo), (q, i) ∈ processIdentifiers env root ids hf →
    (q, i) ∈ hf ∨ (i.uri = q ∧ i.highlightCount = 1)
  | [], _, _, _, _, _, h => Or.inl h
  | ident :: rest, env, root, hf, q, i, h => by
    unfold processIdentifiers at h
    cases hc : effCommit env root ident with
    | none =>
      rw [hc] at h
      exact values_processIdentifiers rest env root hf q i h
    | some commit =>
      rw [hc] at h
      rcases values_processIdentifiers rest env root _ q i h with hm | hv
      · exact values_addFiles _ hf root q i hm
      · exact Or.inr hv

theorem processIdentifiers_skip (env : GitEnv) (root ident : String)
    (rest : List String) (hf : List (String × HighlightedFileInfo))
    (hsym : jsStartsWith ident "I" = true)
    (hres : resolveChangeId env ident root = none) :
    processIdentifiers env root (ident :: rest) hf =
      processIdentifiers env root rest hf := by
  have hc : effCommit env root ident = none := by
    unfold effCommit
    rw [if_pos hsym, hres]
  conv_lhs => unfold processIdentifiers
  rw [hc]

/-- Claim C6: `updateFilesForCommits` replaces (does not merge into) the
highlighted-file index - its result is built from the empty index, so it
is independent of any prior index contents; a symbolic identifier
(leading `I`) that cannot be resolved is skipped without raising,
processing continuing with the rest; every resulting entry carries the
sentinel count 1 (and its own absolute path as resource handle); and the
resulting key set is exactly the union, over the identifiers whose
commit resolves, of that commit's changed files joined to the workspace
root. -/
theorem claim6_computeTouchedFiles (env : GitEnv) (svc : GitBlameServiceState)
    (ids : List String) (root : String)
    (hroot : env.workspaceFolders = some root) :
    (updateFilesForCommits env svc ids).highlightedFiles =
        processIdentifiers env root ids [] ∧
    (∀ svc' : GitBlameServiceState,
      (updateFilesForCommits env svc' ids).highlightedFiles =
        (updateFilesForCommits env svc ids).highlightedFiles) ∧
    (∀ (ident : String) (rest : List String)
        (hf : List (String × HighlightedFileInfo)),
      jsStartsWith ident "I" = true →
      resolveChangeId env ident root = none →
      processIdentifiers env root (ident :: rest) hf =
        processIdentifiers env root rest hf) ∧
    (∀ (q : String) (i : HighlightedFileInfo),
      (q, i) ∈ (updateFilesForCommits env svc ids).highlightedFiles →
      i.uri = q ∧ i.highlightCount = 1) ∧
    (∀ q : String,
      q ∈ (updateFilesForCommits env svc ids).highlightedFiles.map Prod.fst ↔
        ∃ ident ∈ ids, ∃ c, effCommit env root ident = some c ∧
          ∃ f ∈ getFilesForCommit env c root, q = pathJoin root f) := by
  have hres : (updateFilesForCommits env svc ids).highlightedFiles =
      processIdentifiers env root ids [] := by
    unfold updateFilesForCommits
    rw [hroot]
  refine ⟨hres, ?_, ?_, ?_, ?_⟩
  · intro svc'
    rw [hres]
    unfold updateFilesForCommits
    rw [hroot]
  · exact fun ident rest hf hsym hresv =>
      processIdentifiers_skip env root ident rest hf hsym hresv
  · intro q i hqi
    rw [hres] at hqi
    rcases values_processIdentifiers ids env root [] q i hqi with hm | hv
    · simp at hm
    · exact hv
  · intro q
    rw [hres, mem_keysOf_processIdentifiers]
    simp

/-- Witness for C6: in `envB` the symbolic identifier `Ixyz123` is
unresolvable and skipped, and the commit `aaa` contributes
`/w/f.txt` to the rebuilt index. -/
theorem claim6_witness :
    processIdentifiers envB "/w" ["Ixyz123", "aaa"] svc0.highlightedFiles =
      processIdentifiers envB "/w" ["aaa"] svc0.highlightedFiles ∧
    "/w/f.txt" ∈
      (updateFilesForCommits envB svc0 ["Ixyz123", "aaa"]).highlightedFiles.map
        Prod.fst :=
  ⟨(claim6_computeTouchedFiles envB svc0 ["Ixyz123", "aaa"] "/w" rfl).2.2.1
      "Ixyz123" ["aaa"] svc0.highlightedFiles (by decide) (by decide),
   ((claim6_computeTouchedFiles envB svc0 ["Ixyz123", "aaa"] "/w" rfl).2.2.2.2
      "/w/f.txt").mpr
     ⟨"aaa", by decide, "aaa", by decide, "f.txt", by decide, by decide⟩⟩

/-- Claim C1: when `applyHighlighting` runs with a non-empty active hash
list `hs` and the file's blame record `r` (cached or computed, i.e. the
result of `getBlameInfoForFile`, always parser output) is non-empty,
the editor receives exactly the decoration array `computeDecorations r hs`.
Writing `S` for the active hashes that appear in `r`, that array's
length is the sum of the line-counts of the hashes in `S`, its decorated
line-number set is the union of those hashes' line-number sets, and it
decorates no line twice. -/
theorem claim1_applyHighlighting (env : GitEnv) (svc : GitBlameServiceState)
    (eds : List EditorState) (p : String) (hs : List String) (out : String)
    (r : List BlameInfo)
    (hget : (getBlameInfoForFile env svc p).1 = r)
    (hout : r = parseBlameOutput out)
    (hne : hs ≠ []) (hrne : r ≠ []) :
    (applyHighlighting env svc eds p hs).2 =
        setEditorDecorations eds p (computeDecorations r hs) ∧
    (computeDecorations r hs).length =
        ((r.filter (fun b => hs.contains b.hash)).map
          (fun b => b.lines.length)).sum ∧
    (∀ n, n ∈ (computeDecorations r hs).map (fun d => d.line) ↔
        ∃ b ∈ r, hs.contains b.hash = true ∧ n ∈ b.lines) ∧
    ((computeDecorations r hs).map (fun d => d.line)).Nodup := by
  refine ⟨?_, computeDecorations_length r hs,
    fun n => computeDecorations_line_iff r hs n, ?_⟩
  · simp only [applyHighlighting]
    rw [if_neg hne, hget, if_neg hrne]
    split <;> rfl
  · subst hout
    exact computeDecorations_nodup _ hs (parse_lines_nodup out)
      (parse_pairwise_disjoint out)

/-- Witness for C1: `envA`'s blame output on `/w/f` with active set
`[bbb]` decorates exactly lines 1 and 2 (two decorations). -/
theorem claim1_witness :
    (applyHighlighting envA { blameCache := [], highlightedFiles := [] }
        [{ path := "/w/f", decorations := [] }] "/w/f" ["bbb"]).2 =
      setEditorDecorations [{ path := "/w/f", decorations := [] }] "/w/f"
        (computeDecorations rC1 ["bbb"]) ∧
    (computeDecorations rC1 ["bbb"]).length = 2 := by
  have h := claim1_applyHighlighting envA
    { blameCache := [], highlightedFiles := [] }
    [{ path := "/w/f", decorations := [] }] "/w/f" ["bbb"]
    "aaa x\nbbb y\nbbb z" rC1 (by decide) (by decide) (by decide) (by decide)
  refine ⟨h.1, ?_⟩
  rw [h.2.1]
  decide

theorem clearHighlighting_idem (svc : GitBlameServiceState)
    (eds : List EditorState) (p : String) :
    clearHighlighting (clearHighlighting svc eds p).1
        (clearHighlighting svc eds p).2 p =
      clearHighlighting svc eds p := by
  unfold clearHighlighting
  simp [mapErase_mapErase, setEditorDecorations_set]

/-- Claim C7: `highlight(editor)` - the clear-then-conditionally-apply
step run per editor by `triggerHighlighting` - is idempotent: with the
same environment, hash list and enabled flag, running it twice in a row
yields exactly the state (blame cache, highlighted-file index and editor
decorations) of running it once. -/
theorem claim7_highlight_idempotent (env : GitEnv) (svc : GitBlameServiceState)
    (eds : List EditorState) (p : String) (hs : List String) (enabled : Bool) :
    highlightOneEditor env (highlightOneEditor env svc eds p hs enabled).1
        (highlightOneEditor env svc eds p hs enabled).2 p hs enabled =
      highlightOneEditor env svc eds p hs enabled := by
  by_cases hcond : enabled = true ∧ hs ≠ []
  · obtain ⟨hen, hhs⟩ := hcond
    simp only [highlightOneEditor]
    rw [if_pos ⟨hen, hhs⟩, if_pos ⟨hen, hhs⟩]
    cases hlook : mapLookup svc.blameCache p with
    | some r =>
      by_cases hr : r = []
      · subst hr
        simp [applyHighlighting, getBlameInfoForFile, clearHighlighting, hlook,
          hhs, mapErase_mapErase, setEditorDecorations_set]
      · by_cases hd : 0 < (computeDecorations r hs).length
        · simp [applyHighlighting, getBlameInfoForFile, clearHighlighting,
            hlook, hr, hd, hhs, mapErase_mapErase, mapErase_mapSet_self,
            setEditorDecorations_set]
        · simp [applyHighlighting, getBlameInfoForFile, clearHighlighting,
            hlook, hr, hd, hhs, mapErase_mapErase, mapErase_mapSet_self,
            setEditorDecorations_set]
    | none =>
      cases hw : env.workspaceFolder p with
      | none =>
        simp [applyHighlighting, getBlameInfoForFile, clearHighlighting, hlook,
          hw, hhs, mapErase_mapErase, setEditorDecorations_set]
      | some root =>
        cases hg : env.gitBlame root (pathRelative root p) with
        | error e =>
          simp [applyHighlighting, getBlameInfoForFile, clearHighlighting,
            hlook, hw, hg, hhs, mapErase_mapErase, setEditorDecorations_set]
        | ok out =>
          by_cases hr : parseBlameOutput out = []
          · simp [applyHighlighting, getBlameInfoForFile, clearHighlighting,
              hlook, hw, hg, hr, hhs, mapErase_mapErase,
              setEditorDecorations_set, mapLookup_mapSet_self]
          · by_cases hd : 0 < (computeDecorations (parseBlameOutput out) hs).length
            · simp [applyHighlighting, getBlameInfoForFile, clearHighlighting,
                hlook, hw, hg, hr, hd, hhs, mapErase_mapErase,
                mapErase_mapSet_self, setEditorDecorations_set,
                mapLookup_mapSet_self]
            · simp [applyHighlighting, getBlameInfoForFile, clearHighlighting,
                hlook, hw, hg, hr, hd, hhs, mapErase_mapErase,
                mapErase_mapSet_self, setEditorDecorations_set,
                mapLookup_mapSet_self]
  · simp only [highlightOneEditor]
    rw [if_neg hcond, if_neg hcond]
    exact clearHighlighting_idem svc eds p

/-- Counterexample to claim C8: the parser does not put every line of
the file into some hash's list.  On the blame output `^aaa x\nbbb y`
(the leading `^` is git's boundary-commit marker and is not a word
character, so `/^(\w+)/` fails on line 0) the produced record contains
only `bbb` with line 1: the file has two lines but line 0 appears in no
hash's list, refuting "every line of the file appears in exactly one
hash's list". -/
theorem claim8_counterexample :
    parseBlameOutput "^aaa x\nbbb y" = [{ hash := "bbb", lines := [1] }] ∧
    (jsSplitNewline "^aaa x\nbbb y").length = 2 ∧
    (∀ b ∈ parseBlameOutput "^aaa x\nbbb y", 0 ∉ b.lines) :=
  ⟨by decide, by decide, by decide⟩

/-- Claim C8 amended: every record produced by the attribution parser
has pairwise-distinct hash keys, duplicate-free line lists that are
pairwise disjoint across hashes (so each line is attributed at most
once), and a line index appears in some (hence exactly one) hash's list
precisely when its blame-output row carries a recognizable leading hash
token; rows without one (empty, whitespace-only, or starting with a
non-word character such as the boundary marker) appear in no list. -/
theorem claim8_amended (out : String) :
    (blameKeys (parseBlameOutput out)).Nodup ∧
    (∀ b ∈ parseBlameOutput out, b.lines.Nodup) ∧
    (parseBlameOutput out).Pairwise
      (fun b₁ b₂ => ∀ n, n ∈ b₁.lines → n ∉ b₂.lines) ∧
    (∀ (k : Nat) (hk : k < (jsSplitNewline out).length),
      (lineToken ((jsSplitNewline out).get ⟨k, hk⟩)).isSome = true →
      ∃ b ∈ parseBlameOutput out, k ∈ b.lines) ∧
    (∀ b ∈ parseBlameOutput out, ∀ n ∈ b.lines,
      ∃ hn : n < (jsSplitNewline out).length,
        (lineToken ((jsSplitNewline out).get ⟨n, hn⟩)).isSome = true) :=
  ⟨parse_keysNodup out, parse_lines_nodup out, parse_pairwise_disjoint out,
   fun k hk htok => parse_complete out k hk htok,
   fun b hb n hn => parse_sound out b hb n hn⟩

/-- Witness for the amended C8 on `envA`'s three-line blame output:
the keys are distinct and line 1, whose row has a token, lands in a
bucket. -/
theorem claim8_witness :
    (blameKeys (parseBlameOutput "aaa x\nbbb y\nbbb z")).Nodup ∧
    ∃ b ∈ parseBlameOutput "aaa x\nbbb y\nbbb z", 1 ∈ b.lines :=
  ⟨(claim8_amended "aaa x\nbbb y\nbbb z").1,
   (claim8_amended "aaa x\nbbb y\nbbb z").2.2.2.1 1 (by decide) (by decide)⟩

theorem computeDecorations_erase_head (r : List BlameInfo) (hs : List String)
    (a : String) (hnot : ∀ b ∈ r, b.hash ≠ a) :
    computeDecorations r (a :: hs) = computeDecorations r hs := by
  induction r with
  | nil => rfl
  | cons b rest ih =>
    rw [computeDecorations_cons, computeDecorations_cons,
      ih (fun b' hb' => hnot b' (List.mem_cons_of_mem _ hb'))]
    have hcont : (a :: hs).contains b.hash = hs.contains b.hash := by
      simp [List.contains_cons, hnot b (List.mem_cons_self _ _)]
    rw [hcont]

/-- Claim C9: symbolic identifiers are never resolved on the
line-highlighting path.  `applyHighlighting` matches blame hashes only
by literal membership, so an active identifier `ident` recognized as
symbolic (leading `I`) that is not literally one of the record's hashes
contributes no decoration - even when the environment resolves it to a
commit `c` that attributes lines of the open file - while the same
identifier does contribute entries to the highlighted-file index through
`updateFilesForCommits`. -/
theorem claim9_symbolic_not_highlighted (env : GitEnv)
    (svc : GitBlameServiceState) (r : List BlameInfo) (hs : List String)
    (ident root c : String)
    (hsym : jsStartsWith ident "I" = true)
    (hnot : ∀ b ∈ r, b.hash ≠ ident)
    (hroot : env.workspaceFolders = some root)
    (hres : resolveChangeId env ident root = some c)
    (hattr : ∃ b ∈ r, b.hash = c ∧ b.lines ≠ [])
    (hfiles : getFilesForCommit env c root ≠ []) :
    computeDecorations r (ident :: hs) = computeDecorations r hs ∧
    (updateFilesForCommits env svc [ident]).highlightedFiles ≠ [] := by
  constructor
  · exact computeDecorations_erase_head r hs ident hnot
  · have hpi : processIdentifiers env root [ident] [] =
        addFiles root [] (getFilesForCommit env c root) := by
      unfold processIdentifiers effCommit
      rw [if_pos hsym, hres]
      rfl
    have hupdate : (updateFilesForCommits env svc [ident]).highlightedFiles =
        processIdentifiers env root [ident] [] := by
      simp [updateFilesForCommits, hroot]
    rw [hupdate, hpi]
    obtain ⟨f, hf⟩ := List.exists_mem_of_ne_nil _ hfiles
    have hmem := (mem_keysOf_addFiles (getFilesForCommit env c root) [] root
      (pathJoin root f)).mpr (Or.inr ⟨f, hf, rfl⟩)
    intro hempty
    rw [hempty] at hmem
    simp at hmem

/-- Witness for C9: in `envA` the symbolic identifier `Iabc` resolves to
commit `ccc`, which attributes line 0 of the record, yet adds no
decoration, while `updateFilesForCommits [Iabc]` badges `/w/f.txt`. -/
theorem claim9_witness :
    computeDecorations [{ hash := "ccc", lines := [0] }] ("Iabc" :: ["ccc"]) =
      computeDecorations [{ hash := "ccc", lines := [0] }] ["ccc"] ∧
    (updateFilesForCommits envA { blameCache := [], highlightedFiles := [] }
      ["Iabc"]).highlightedFiles ≠ [] := by
  have h := claim9_symbolic_not_highlighted envA
    { blameCache := [], highlightedFiles := [] }
    [{ hash := "ccc", lines := [0] }] ["ccc"] "Iabc" "/w" "ccc"
    (by decide) (by decide) rfl (by decide) (by decide) (by decide)
  exact ⟨h.1, h.2⟩

/-- Claim C10: every hash key of a parsed blame record is the leading
run of word characters of some blame-output line truncated to its first
40 characters, and decoration matching is exact string equality: for a
record entry `b` and an active identifier `a` that is a strict prefix of
`b.hash` (for example a short hash), no decoration produced for active
set `[a]` lies on any of `b`'s lines or carries `b`'s hover message -
every such decoration hovers `a` itself. -/
theorem claim10_truncation_exact_match (out : String) (r : List BlameInfo)
    (hout : r = parseBlameOutput out) :
    (∀ b ∈ r, ∃ l ∈ jsSplitNewline out, lineToken l = some b.hash ∧
      b.hash = jsSubstring40 (leadingWordRun l)) ∧
    (∀ (a : String) (b : BlameInfo), b ∈ r →
      jsStartsWith b.hash a = true → a ≠ b.hash →
      ∀ d ∈ computeDecorations r [a],
        d.line ∉ b.lines ∧ d.hoverMessage = "Commit: " ++ a) := by
  constructor
  · intro b hb
    exact parse_keys_shape out b (hout ▸ hb)
  · intro a b hb hpre hne d hd
    rcases (computeDecorations_mem r [a] d).mp hd with ⟨b', hb', hcont, hline, hmsg⟩
    have hba : b'.hash = a := by
      simpa using hcont
    constructor
    · intro hdb
      subst hout
      have hbb' : b' ≠ b := by
        intro he
        rw [he] at hba
        exact hne hba.symm
      have hsymm : ∀ b₁ b₂ : BlameInfo,
          (∀ n, n ∈ b₁.lines → n ∉ b₂.lines) →
          (∀ n, n ∈ b₂.lines → n ∉ b₁.lines) := by
        intro b₁ b₂ h n hn2 hn1
        exact h n hn1 hn2
      have hdisj := List.Pairwise.forall (fun {x y} => hsymm x y)
        (parse_pairwise_disjoint out) hb' hb hbb'
      exact hdisj d.line hline hdb
    · rw [hmsg, hba]

/-- Witness for C10: on the output `aaa x\nbbb y`, the key `aaa` comes
from truncating the word run of its line, and the strict prefix `aa` of
`aaa` matches nothing. -/
theorem claim10_witness :
    ∃ l ∈ jsSplitNewline "aaa x\nbbb y",
      lineToken l = some "aaa" ∧ "aaa" = jsSubstring40 (leadingWordRun l) := by
  have h := claim10_truncation_exact_match "aaa x\nbbb y"
    (parseBlameOutput "aaa x\nbbb y") rfl
  exact h.1 { hash := "aaa", lines := [0] } (by decide)
